import Mathlib

/-!
Shallow embedding of the bytecode-equivalence verifier of this repository.

The comparator, the constructor-argument extractor and the candidate loop are
translated from `src/smart-contract-verifier/src/verifier/base_verifier.rs`;
the settings-metadata sweep from
`src/smart-contract-verifier/src/solidity/multi_part.rs`.
Repository code that is referenced there but absent from `src/`
(the `Bytecode`/`LocalBytecode` constructors, the CBOR metadata decoder,
the error display strings, the `ContractVerifier` capability) is modelled
from the spec; every such definition says so in its doc comment.

Machine integers are modelled as `Nat`; byte strings as `List Nat`.
Rust panics (assertion failures, out-of-range slice indexing) are modelled
explicitly by the `RustRes.panic` constructor.
-/

/-- A byte string (`bytes::Bytes` in the source). -/
abbrev Bytes := List Nat

/-- Bytes of `xs` in positions `[a, b)`; the total counterpart of Rust slicing. -/
def listSlice (xs : Bytes) (a b : Nat) : Bytes := (xs.drop a).take (b - a)

/-- Rust slicing `&xs[a..b]` panics when the range is out of bounds;
`none` models the panic. -/
def sliceChecked (xs : Bytes) (a b : Nat) : Option Bytes :=
  if a ≤ b ∧ b ≤ xs.length then some (listSlice xs a b) else none

/-- Rust slicing `&xs[a..]` panics when `a > xs.len()`; `none` models the panic. -/
def sliceFrom (xs : Bytes) (a : Nat) : Option Bytes :=
  if a ≤ xs.length then some (xs.drop a) else none

/-- Result of a Rust computation: a value, a recoverable error, or a panic. -/
inductive RustRes (ε : Type) (α : Type) where
  | panic (msg : String)
  | err (e : ε)
  | ok (a : α)
  deriving DecidableEq, Repr

/-- Modelled from the spec: a decoded CBOR value occurring in the metadata map
(`metadata.rs` is absent from `src/`). Byte strings, text strings and booleans
cover the standard and experimental metadata fields. -/
inductive CborValue where
  | bytes (bs : Bytes)
  | text (bs : Bytes)
  | bool (b : Bool)
  deriving DecidableEq, Repr

/-- The decoded CBOR metadata map. Only `solc` is inspected by the verifier;
`ipfs`, `bzzr1` and unknown keys are preserved but never compared. -/
structure MetadataHash where
  solc : Option Bytes
  ipfs : Option Bytes
  bzzr1 : Option Bytes
  others : List (Bytes × CborValue)
  deriving DecidableEq, Repr

/-- Read `n` bytes from the front of the input, failing on truncation. -/
def readN : Nat → Bytes → Except String (Bytes × Bytes)
  | 0, xs => .ok ([], xs)
  | _ + 1, [] => .error "unexpected end of cbor input"
  | n + 1, b :: xs =>
    match readN n xs with
    | .error e => .error e
    | .ok (bs, rest) => .ok (b :: bs, rest)

/-- Read a single byte, failing on truncation. -/
def readByte (xs : Bytes) : Except String (Nat × Bytes) :=
  match xs with
  | [] => .error "unexpected end of cbor input"
  | b :: rest => .ok (b, rest)

/-- Read a CBOR text-string key (major type 3, small or one-byte length). -/
def readTextKey (xs : Bytes) : Except String (Bytes × Bytes) :=
  match xs with
  | [] => .error "unexpected end of cbor input"
  | h :: rest =>
    if 0x60 ≤ h ∧ h ≤ 0x77 then readN (h - 0x60) rest
    else if h = 0x78 then
      match readByte rest with
      | .error e => .error e
      | .ok (l, rest) => readN l rest
    else .error "expected cbor text key"

/-- Read a CBOR value: a byte string (major type 2, small or one-byte length),
a text string, or a boolean simple value. -/
def readValue (xs : Bytes) : Except String (CborValue × Bytes) :=
  match xs with
  | [] => .error "unexpected end of cbor input"
  | h :: rest =>
    if 0x40 ≤ h ∧ h ≤ 0x57 then
      match readN (h - 0x40) rest with
      | .error e => .error e
      | .ok (bs, r) => .ok (.bytes bs, r)
    else if h = 0x58 then
      match readByte rest with
      | .error e => .error e
      | .ok (l, rest) =>
        match readN l rest with
        | .error e => .error e
        | .ok (bs, r) => .ok (.bytes bs, r)
    else if 0x60 ≤ h ∧ h ≤ 0x77 then
      match readN (h - 0x60) rest with
      | .error e => .error e
      | .ok (bs, r) => .ok (.text bs, r)
    else if h = 0xf4 then .ok (.bool false, rest)
    else if h = 0xf5 then .ok (.bool true, rest)
    else .error "unsupported cbor value"

/-- Read `n` key-value pairs of a CBOR map. -/
def readPairs : Nat → Bytes → Except String (List (Bytes × CborValue) × Bytes)
  | 0, xs => .ok ([], xs)
  | n + 1, xs =>
    match readTextKey xs with
    | .error e => .error e
    | .ok (key, rest1) =>
      match readValue rest1 with
      | .error e => .error e
      | .ok (v, rest2) =>
        match readPairs n rest2 with
        | .error e => .error e
        | .ok (pairs, rest3) => .ok ((key, v) :: pairs, rest3)

/-- The UTF-8 bytes of the key "solc". -/
def solcKey : Bytes := [0x73, 0x6f, 0x6c, 0x63]

/-- The UTF-8 bytes of the key "ipfs". -/
def ipfsKey : Bytes := [0x69, 0x70, 0x66, 0x73]

/-- The UTF-8 bytes of the key "bzzr1". -/
def bzzr1Key : Bytes := [0x62, 0x7a, 0x7a, 0x72, 0x31]

/-- Distribute the decoded pairs over the fields of `MetadataHash`;
unknown keys are preserved in `others`. -/
def buildMetadata : List (Bytes × CborValue) → MetadataHash
  | [] => ⟨none, none, none, []⟩
  | (k, v) :: rest =>
    let acc := buildMetadata rest
    match v with
    | .bytes bs =>
      if k = solcKey then { acc with solc := some bs }
      else if k = ipfsKey then { acc with ipfs := some bs }
      else if k = bzzr1Key then { acc with bzzr1 := some bs }
      else { acc with others := (k, v) :: acc.others }
    | _ => { acc with others := (k, v) :: acc.others }

/-- Modelled from the spec: `MetadataHash::from_cbor` (`metadata.rs` is absent
from `src/`). Reads a single CBOR map from the start of the input, tolerating
unknown keys and detecting truncation; returns the decoded map together with
the exact number of bytes the CBOR encoding occupied. It does not read the
trailing 2-byte length suffix. -/
def MetadataHash.fromCbor (input : Bytes) : Except String (MetadataHash × Nat) :=
  match input with
  | [] => .error "unexpected end of cbor input"
  | h :: rest =>
    if 0xa0 ≤ h ∧ h ≤ 0xb7 then
      match readPairs (h - 0xa0) rest with
      | .error e => .error e
      | .ok (pairs, rem) => .ok (buildMetadata pairs, input.length - rem.length)
    else .error "expected cbor map"

/-- A part of a compiled bytecode: an executable region, or the CBOR metadata
blob together with its 2-byte big-endian length suffix. -/
inductive BytecodePart where
  | main (raw : Bytes)
  | metadata (metadata : MetadataHash) (metadata_length_raw : Bytes) (encoded_length : Nat)
  deriving DecidableEq, Repr

/-- The on-chain size of a part: `Main` contributes its raw bytes, `Metadata`
contributes the encoded CBOR map plus the 2-byte length suffix. -/
def BytecodePart.size : BytecodePart → Nat
  | .main raw => raw.length
  | .metadata _ _ encoded_length => encoded_length + 2

/-- A pair of an expected and a found value, carried by comparison errors. -/
structure Mismatch (α : Type) where
  expected : α
  found : α
  deriving DecidableEq, Repr

/-- Hex digit characters. -/
def hexDigit (n : Nat) : Char :=
  if n < 10 then Char.ofNat (48 + n) else Char.ofNat (87 + n)

/-- Render one byte as two lowercase hex digits. -/
def byteToHex (b : Nat) : String :=
  String.mk [hexDigit (b / 16 % 16), hexDigit (b % 16)]

/-- Render a byte string the way `DisplayBytes` does: "0x" followed by hex. -/
def displayBytes (bs : Bytes) : String :=
  "0x" ++ String.join (bs.map byteToHex)

/-- The errors raised when building a `Bytecode` from raw input or from a
compiled artifact. -/
inductive BytecodeInitError where
  | emptyCreationTxInput
  | emptyDeployedBytecode
  | invalidCreationTxInput (reason : String)
  | invalidDeployedBytecode (reason : String)
  deriving DecidableEq, Repr

/-- Modelled from the spec: the display strings of `BytecodeInitError`
(`errors.rs` is absent from `src/`); only their flow into
`InternalError("modified contract: ...")` is observable here. -/
def BytecodeInitError.message : BytecodeInitError → String
  | .emptyCreationTxInput => "creation transaction input is empty"
  | .emptyDeployedBytecode => "deployed bytecode is empty"
  | .invalidCreationTxInput r => "invalid creation transaction input: " ++ r
  | .invalidDeployedBytecode r => "invalid deployed bytecode: " ++ r

/-- The per-candidate verification error kinds. -/
inductive VerificationErrorKind where
  | abstractContract
  | libraryMissed
  | bytecodeLengthMismatch (part : Mismatch Nat) (raw : Mismatch Bytes)
  | bytecodeMismatch (part : Mismatch Bytes) (raw : Mismatch Bytes)
  | metadataParse (msg : String)
  | compilerVersionMismatch (m : Mismatch (Option String))
  | invalidConstructorArguments (bs : Bytes)
  | internalError (msg : String)
  deriving DecidableEq, Repr

/-- A verification error tagged with the file path and, when known, the
contract name of the failed candidate. -/
structure VerificationError where
  file_path : String
  contract_name : Option String
  kind : VerificationErrorKind
  deriving DecidableEq, Repr

/-- Create an error with no contract name (`VerificationError::new`). -/
def VerificationError.new (file_path : String) (kind : VerificationErrorKind) :
    VerificationError := ⟨file_path, none, kind⟩

/-- Create an error tagged with a contract name
(`VerificationError::with_contract`). -/
def VerificationError.with_contract (file_path contract_name : String)
    (kind : VerificationErrorKind) : VerificationError :=
  ⟨file_path, some contract_name, kind⟩

/-- An ABI parameter type; `ethabi::decode` is external, so a single static
32-byte word type suffices as its model here. -/
inductive ParamType where
  | uint256
  deriving DecidableEq, Repr

/-- An ABI constructor parameter. -/
structure Param where
  kind : ParamType
  deriving DecidableEq, Repr

/-- The ABI constructor signature. -/
structure Constructor where
  inputs : List Param
  deriving DecidableEq, Repr

/-- The contract ABI; the verifier only consults its constructor. -/
structure Abi where
  constructor : Option Constructor
  deriving DecidableEq, Repr

/-- A decoded ABI token. -/
inductive Token where
  | word (bs : Bytes)
  deriving DecidableEq, Repr

/-- Modelled external dependency: `ethabi::decode` restricted to static
32-byte word parameters. Succeeds exactly when the data length matches the
declared parameter count; the decoded tokens are the 32-byte words. -/
def ethabiDecode (param_types : List ParamType) (data : Bytes) :
    Except String (List Token) :=
  if data.length = 32 * param_types.length then
    .ok ((List.range param_types.length).map
      (fun k => .word (listSlice data (32 * k) (32 * k + 32))))
  else .error "invalid abi encoding"

/-- The paired creation and deployed byte strings of one contract. -/
structure Bytecode where
  creation_tx_input : Bytes
  deployed_bytecode : Bytes
  deriving DecidableEq, Repr

/-- Modelled from the spec: `Bytecode::new` (`bytecode.rs` is absent from
`src/`): both byte strings are rejected at construction if empty. -/
def Bytecode.new (creation_tx_input deployed_bytecode : Bytes) :
    Except BytecodeInitError Bytecode :=
  if creation_tx_input.isEmpty then .error .emptyCreationTxInput
  else if deployed_bytecode.isEmpty then .error .emptyDeployedBytecode
  else .ok ⟨creation_tx_input, deployed_bytecode⟩

/-- Modelled from the spec: one compiled bytecode of a contract artifact.
The compiler output either yields no bytes (abstract contract), bytes still
holding unresolved library placeholders, or linked bytes together with the
split information that identifies the metadata tail. -/
inductive ArtifactCode where
  | empty
  | unlinked (reason : String)
  | linked (raw : Bytes) (parts : List BytecodePart)
  deriving DecidableEq, Repr

/-- Modelled from the spec: a contract artifact from the compiler output:
an optional ABI plus the creation and deployed bytecodes. -/
structure Contract where
  abi : Option Abi
  creation : ArtifactCode
  deployed : ArtifactCode
  deriving DecidableEq, Repr

/-- Modelled from the spec: the result of parsing one contract artifact:
the paired bytecode and the part split of each of its byte strings. -/
structure ParsedContract where
  bytecode : Bytecode
  creation_parts : List BytecodePart
  deployed_parts : List BytecodePart
  deriving DecidableEq, Repr

/-- Modelled from the spec: `Bytecode::try_from(&Contract)` (`bytecode.rs`
is absent from `src/`). An empty bytecode yields `EmptyCreationTxInput` or
`EmptyDeployedBytecode`; unresolved library placeholders yield
`InvalidCreationTxInput` or `InvalidDeployedBytecode`. -/
def parseContract (c : Contract) : Except BytecodeInitError ParsedContract :=
  match c.creation with
  | .empty => .error .emptyCreationTxInput
  | .unlinked reason => .error (.invalidCreationTxInput reason)
  | .linked craw cparts =>
    match c.deployed with
    | .empty => .error .emptyDeployedBytecode
    | .unlinked reason => .error (.invalidDeployedBytecode reason)
    | .linked draw dparts => .ok ⟨⟨craw, draw⟩, cparts, dparts⟩

/-- The structured output of one compiled contract: the paired bytecode and
the ordered parts of each byte string. -/
structure LocalBytecode where
  bytecode : Bytecode
  creation_tx_input_parts : List BytecodePart
  deployed_bytecode_parts : List BytecodePart
  deriving DecidableEq, Repr

/-- The creation transaction input held by a `LocalBytecode`. -/
def LocalBytecode.creation_tx_input (lb : LocalBytecode) : Bytes :=
  lb.bytecode.creation_tx_input

/-- Modelled from the spec: `LocalBytecode::new` (`bytecode.rs` is absent from
`src/`). The unmodified parts drive matching; the modified parts are used only
to confirm that the metadata boundaries align. -/
def LocalBytecode.new (p p_modified : ParsedContract) :
    Except VerificationErrorKind LocalBytecode :=
  if p.creation_parts.map BytecodePart.size
       = p_modified.creation_parts.map BytecodePart.size
     ∧ p.deployed_parts.map BytecodePart.size
       = p_modified.deployed_parts.map BytecodePart.size
  then .ok ⟨p.bytecode, p.creation_parts, p.deployed_parts⟩
  else .error (.internalError "metadata boundaries of modified bytecode do not align")

/-- The verifier: holds the remote bytecode provided by the requester. -/
structure Verifier where
  remote_bytecode : Bytecode
  deriving DecidableEq, Repr

/-- `Verifier::new`: validates and stores the remote bytecode. -/
def Verifier.new (creation_tx_input deployed_bytecode : Bytes) :
    Except BytecodeInitError Verifier :=
  match Bytecode.new creation_tx_input deployed_bytecode with
  | .error e => .error e
  | .ok b => .ok ⟨b⟩

/-- The data returned when verification succeeds. -/
structure VerificationSuccess where
  file_path : String
  contract_name : String
  abi : Abi
  constructor_args : Option Bytes
  deriving DecidableEq, Repr

/-- The loop body of `Verifier::compare_bytecode_parts`: walk the local parts
over the remote bytes, keeping the cursor `i`. `Main` regions must be
byte-identical; for `Metadata` regions the remote CBOR map is decoded, its
2-byte length suffix is checked against the local one, and only the `solc`
fields are compared. -/
def comparePartsLoop (remote_raw local_raw : Bytes) :
    List BytecodePart → Nat → RustRes VerificationErrorKind Unit
  | [], _ => .ok ()
  | part :: rest, i =>
    match part with
    | .main raw =>
      match sliceChecked remote_raw i (i + raw.length) with
      | none => .panic "index out of range"
      | some s =>
        if raw ≠ s then
          .err (.bytecodeMismatch ⟨raw, s⟩ ⟨local_raw, remote_raw⟩)
        else
          comparePartsLoop remote_raw local_raw rest (i + (BytecodePart.main raw).size)
    | .metadata metadata metadata_length_raw encoded_length =>
      match sliceFrom remote_raw i with
      | none => .panic "index out of range"
      | some tail =>
        match MetadataHash.fromCbor tail with
        | .error e => .err (.metadataParse e)
        | .ok (remote_metadata, remote_metadata_length) =>
          let start_index := i + remote_metadata_length
          match sliceChecked remote_raw start_index (start_index + 2) with
          | none => .panic "index out of range"
          | some suffix =>
            if suffix ≠ metadata_length_raw then
              .err (.metadataParse "metadata length mismatch")
            else if metadata.solc ≠ remote_metadata.solc then
              .err (.compilerVersionMismatch
                ⟨metadata.solc.map displayBytes, remote_metadata.solc.map displayBytes⟩)
            else
              comparePartsLoop remote_raw local_raw rest
                (i + (BytecodePart.metadata metadata metadata_length_raw encoded_length).size)

/-- `Verifier::compare_bytecode_parts`: asserts that the remote bytes are at
least as long as the local ones, then walks the parts. -/
def compareBytecodeParts (remote_raw local_raw : Bytes)
    (local_parts : List BytecodePart) : RustRes VerificationErrorKind Unit :=
  if remote_raw.length < local_raw.length then
    .panic "Local bytecode is greater than remote"
  else comparePartsLoop remote_raw local_raw local_parts 0

/-- `Verifier::compare_creation_tx_inputs`: a remote creation input shorter
than the local one is a `BytecodeLengthMismatch`; otherwise the parts walk. -/
def compareCreationTxInputs (remote_bytecode : Bytecode)
    (local_bytecode : LocalBytecode) : RustRes VerificationErrorKind Unit :=
  let remote_creation_tx_input := remote_bytecode.creation_tx_input
  let local_creation_tx_input := local_bytecode.creation_tx_input
  if remote_creation_tx_input.length < local_creation_tx_input.length then
    .err (.bytecodeLengthMismatch
      ⟨local_creation_tx_input.length, remote_creation_tx_input.length⟩
      ⟨local_creation_tx_input, remote_creation_tx_input⟩)
  else
    compareBytecodeParts remote_creation_tx_input local_creation_tx_input
      local_bytecode.creation_tx_input_parts

/-- Whether the ABI constructor expects any arguments. -/
def expectsConstructorArgs (abi_constructor : Option Constructor) : Bool :=
  (match abi_constructor with
   | some c => c.inputs.length
   | none => 0) > 0

/-- `Verifier::parse_constructor_args`: decode the trailing bytes against the
constructor parameter types; a decode failure is
`InvalidConstructorArguments`. -/
def parseConstructorArgs (encoded_args : Bytes) (abi_constructor : Constructor) :
    RustRes VerificationErrorKind (List Token) :=
  let param_types := abi_constructor.inputs.map Param.kind
  match ethabiDecode param_types encoded_args with
  | .error _ => .err (.invalidConstructorArguments encoded_args)
  | .ok tokens => .ok tokens

/-- `Verifier::extract_constructor_args`: the bytes of the remote creation
input beyond the local length are the encoded constructor arguments; the
four-case analysis of presence against expectation. -/
def extractConstructorArgs (remote_raw local_raw : Bytes)
    (abi_constructor : Option Constructor) :
    RustRes VerificationErrorKind (Option Bytes) :=
  match sliceFrom remote_raw local_raw.length with
  | none => .panic "index out of range"
  | some e =>
    let encoded_constructor_args := if e.isEmpty then none else some e
    let expects := expectsConstructorArgs abi_constructor
    match encoded_constructor_args with
    | none =>
      if expects then .err (.invalidConstructorArguments [])
      else .ok none
    | some encoded =>
      if ¬ expects then .err (.invalidConstructorArguments encoded)
      else
        match abi_constructor with
        | none => .panic "Is not None as expects_constructor_args"
        | some ctor =>
          match parseConstructorArgs encoded ctor with
          | .panic m => .panic m
          | .err k => .err k
          | .ok _constructor_args => .ok (some encoded)

/-- The mapping of artifact parse failures applied to the unmodified contract
in `Verifier::compare`: empty bytecodes mean an abstract contract, unresolved
placeholders mean missing libraries. -/
def mapInitError : BytecodeInitError → VerificationErrorKind
  | .emptyCreationTxInput => .abstractContract
  | .emptyDeployedBytecode => .abstractContract
  | .invalidCreationTxInput _ => .libraryMissed
  | .invalidDeployedBytecode _ => .libraryMissed

/-- `Verifier::compare`: extract the ABI, parse both contracts, pair them,
compare the creation inputs and extract the constructor arguments. -/
def Verifier.compare (v : Verifier) (contract contract_modified : Contract) :
    RustRes VerificationErrorKind (Abi × Option Bytes) :=
  match contract.abi with
  | none => .err (.internalError "missing abi")
  | some abi =>
    match parseContract contract with
    | .error e => .err (mapInitError e)
    | .ok bytecode =>
      match parseContract contract_modified with
      | .error e => .err (.internalError ("modified contract: " ++ e.message))
      | .ok bytecode_modified =>
        match LocalBytecode.new bytecode bytecode_modified with
        | .error k => .err k
        | .ok local_bytecode =>
          match compareCreationTxInputs v.remote_bytecode local_bytecode with
          | .panic m => .panic m
          | .err k => .err k
          | .ok _ =>
            match extractConstructorArgs v.remote_bytecode.creation_tx_input
                local_bytecode.creation_tx_input abi.constructor with
            | .panic m => .panic m
            | .err k => .err k
            | .ok constructor_args => .ok (abi, constructor_args)

/-- The compiler output: an ordered map from file path to an ordered map from
contract name to contract artifact (`BTreeMap` iteration order is the list
order). -/
structure CompilerOutput where
  contracts : List (String × List (String × Contract))
  deriving DecidableEq, Repr

/-- The inner loop of `Verifier::verify`: iterate the contracts of one file
path, accumulating errors; the first successful comparison short-circuits. -/
def verifyContractLoop (v : Verifier) (path : String)
    (contracts_modified : List (String × Contract)) :
    List (String × Contract) → List VerificationError →
    RustRes (List VerificationError) VerificationSuccess
  | [], errors => .err errors
  | (name, contract) :: rest, errors =>
    match contracts_modified.lookup name with
    | none =>
      verifyContractLoop v path contracts_modified rest
        (errors ++ [VerificationError.with_contract path name
          (.internalError "not found in modified compiler output")])
    | some contract_modified =>
      match v.compare contract contract_modified with
      | .ok (abi, constructor_args) => .ok ⟨path, name, abi, constructor_args⟩
      | .err k =>
        verifyContractLoop v path contracts_modified rest
          (errors ++ [VerificationError.with_contract path name k])
      | .panic m => .panic m

/-- The outer loop of `Verifier::verify`: iterate the file paths; a path
absent from the modified output contributes one `InternalError` and the
iteration continues. -/
def verifyPathLoop (v : Verifier) (output_modified : CompilerOutput) :
    List (String × List (String × Contract)) → List VerificationError →
    RustRes (List VerificationError) VerificationSuccess
  | [], errors => .err errors
  | (path, contracts) :: rest, errors =>
    match output_modified.contracts.lookup path with
    | none =>
      verifyPathLoop v output_modified rest
        (errors ++ [VerificationError.new path
          (.internalError "not found in modified compiler output")])
    | some contracts_modified =>
      match verifyContractLoop v path contracts_modified contracts errors with
      | .err errors => verifyPathLoop v output_modified rest errors
      | .ok s => .ok s
      | .panic m => .panic m

/-- `Verifier::verify`: iterate all contracts of the compiler output in order,
returning the first success or the accumulated error list. -/
def Verifier.verify (v : Verifier) (output output_modified : CompilerOutput) :
    RustRes (List VerificationError) VerificationSuccess :=
  verifyPathLoop v output_modified output.contracts []

deriving instance DecidableEq for Except

/-- Modelled from the spec: the compiler semantic version (the repository's
`Version` wrapper is absent from `src/`); major, minor and patch drive the
`<0.6.0` requirement check. -/
structure Version where
  major : Nat
  minor : Nat
  patch : Nat
  deriving DecidableEq, Repr

/-- Modelled from the spec: `VersionReq::parse("<0.6.0").matches(version)`:
lexicographic comparison of (major, minor, patch) against the bound. -/
def Version.lt (a b : Version) : Bool :=
  decide (a.major < b.major)
  || (a.major == b.major
      && (decide (a.minor < b.minor)
          || (a.minor == b.minor && decide (a.patch < b.patch))))

/-- The metadata hash kind embeddable in the bytecode tail
(`ethers_solc::artifacts::BytecodeHash`). -/
inductive BytecodeHash where
  | ipfs
  | none
  | bzzr1
  deriving DecidableEq, Repr

/-- The `metadata` section of the compiler settings
(`ethers_solc::artifacts::SettingsMetadata`). -/
structure SettingsMetadata where
  bytecode_hash : Option BytecodeHash
  deriving DecidableEq, Repr

/-- `SettingsMetadata::from(BytecodeHash)`. -/
def SettingsMetadata.fromBytecodeHash (h : BytecodeHash) : SettingsMetadata :=
  ⟨some h⟩

/-- The EVM target version; the sweep never inspects it, so an opaque name
suffices. -/
structure EvmVersion where
  name : String
  deriving DecidableEq, Repr

/-- The optimizer settings (`ethers_solc::artifacts::Optimizer`). -/
structure Optimizer where
  enabled : Option Bool
  runs : Option Nat
  deriving DecidableEq, Repr

/-- The library address mappings, per source file
(`ethers_solc::artifacts::Libraries`). -/
structure Libraries where
  libs : List (String × List (String × String))
  deriving DecidableEq, Repr

/-- The compiler settings (`ethers_solc::artifacts::Settings`); the fields the
sweep and the input construction touch. -/
structure Settings where
  optimizer : Optimizer
  libraries : Libraries
  evm_version : Option EvmVersion
  metadata : Option SettingsMetadata
  deriving DecidableEq, Repr

/-- `Settings::default()`. -/
def Settings.default : Settings :=
  ⟨⟨none, none⟩, ⟨[]⟩, none, none⟩

/-- The full compiler input (`ethers_solc::CompilerInput`). -/
structure CompilerInput where
  language : String
  sources : List (String × String)
  settings : Settings
  deriving DecidableEq, Repr

/-- The multi-file verification request content. -/
structure MultiFileContent where
  sources : List (String × String)
  evm_version : Option EvmVersion
  optimization_runs : Option Nat
  contract_libraries : Option (List (String × String))
  deriving DecidableEq, Repr

/-- `From<MultiFileContent> for CompilerInput`: enable the optimizer exactly
when runs are given, attach every library mapping to every source file, set
the EVM version, and carry the sources over. -/
def CompilerInput.ofMultiFileContent (content : MultiFileContent) : CompilerInput :=
  let settings0 := Settings.default
  let settings1 := { settings0 with
    optimizer := ⟨some content.optimization_runs.isSome, content.optimization_runs⟩ }
  let settings2 :=
    match content.contract_libraries with
    | some libs =>
      { settings1 with
        libraries := ⟨content.sources.map (fun (fc : String × String) => (fc.1, libs))⟩ }
    | none => settings1
  let settings3 := { settings2 with evm_version := content.evm_version }
  { language := "Solidity"
    sources := content.sources
    settings := settings3 }

/-- Overwrite the metadata option of a compiler input:
`compiler_input.settings.metadata = metadata`. -/
def setMetadata (input : CompilerInput) (metadata : Option SettingsMetadata) :
    CompilerInput :=
  { input with settings := { input.settings with metadata := metadata } }

/-- The candidate list of metadata settings, in probability order
(`settings_metadata` in `multi_part.rs`). -/
def BYTECODE_HASHES : List BytecodeHash := [.ipfs, .none, .bzzr1]

/-- The candidate metadata settings tried by the sweep: only `None` for
compilers older than 0.6.0, otherwise `Ipfs`, `None`, `Bzzr1`. -/
def settings_metadata (compiler_version : Version) : List (Option SettingsMetadata) :=
  if Version.lt compiler_version ⟨0, 6, 0⟩ then [Option.none]
  else BYTECODE_HASHES.map (fun h => some (SettingsMetadata.fromBytecodeHash h))

/-- The error type of the top-level verification; the sweep only distinguishes
`NoMatchingContracts` from every other error. -/
inductive SweepError where
  | noMatchingContracts
  | other (msg : String)
  deriving DecidableEq, Repr

/-- The loop of `multi_part::verify` over the candidate metadata settings:
overwrite the metadata option on the (mutated in place) compiler input, invoke
compile + verify through the external capability `attempt`, continue exactly
on `NoMatchingContracts`, return anything else immediately, and report
`NoMatchingContracts` on exhaustion. -/
def sweepLoop {σ : Type} (attempt : CompilerInput → Except SweepError σ) :
    CompilerInput → List (Option SettingsMetadata) → Except SweepError σ
  | _, [] => .error .noMatchingContracts
  | compiler_input, metadata :: rest =>
    let compiler_input := setMetadata compiler_input metadata
    match attempt compiler_input with
    | .error .noMatchingContracts => sweepLoop attempt compiler_input rest
    | result => result

/-- `multi_part::verify`, with the external compile + verify capability
(`ContractVerifier`, absent from `src/`) abstracted as `attempt`: build the
compiler input from the request content once, then sweep the metadata
candidates. -/
def multiPartVerify {σ : Type} (attempt : CompilerInput → Except SweepError σ)
    (compiler_version : Version) (content : MultiFileContent) : Except SweepError σ :=
  sweepLoop attempt (CompilerInput.ofMultiFileContent content)
    (settings_metadata compiler_version)

/-- Specification-side view of the sweep: the attempt outcome at each
candidate in order, first non-`NoMatchingContracts` outcome wins. -/
def attemptsFirst {σ : Type} (f : Option SettingsMetadata → Except SweepError σ) :
    List (Option SettingsMetadata) → Except SweepError σ
  | [] => .error .noMatchingContracts
  | m :: rest =>
    match f m with
    | .error .noMatchingContracts => attemptsFirst f rest
    | result => result

/-- Specification-side view of one candidate of `Verifier::verify`, written
after the spec's words: locate the paired contract in the modified output
(absence is an internal error), otherwise compare. -/
def candidateResult (v : Verifier) (path : String)
    (contracts_modified : List (String × Contract)) (name : String)
    (contract : Contract) : RustRes VerificationError VerificationSuccess :=
  match contracts_modified.lookup name with
  | none =>
    .err (VerificationError.with_contract path name
      (.internalError "not found in modified compiler output"))
  | some contract_modified =>
    match v.compare contract contract_modified with
    | .ok (abi, constructor_args) => .ok ⟨path, name, abi, constructor_args⟩
    | .err k => .err (VerificationError.with_contract path name k)
    | .panic m => .panic m

/-- Specification-side view of the candidate sequence of `Verifier::verify`,
in iteration order (file path, then contract name); a file path absent from
the modified output contributes a single internal error. -/
def candidateResults (v : Verifier) (output_modified : CompilerOutput) :
    List (String × List (String × Contract)) →
    List (RustRes VerificationError VerificationSuccess)
  | [] => []
  | (path, contracts) :: rest =>
    (match output_modified.contracts.lookup path with
     | none =>
       [.err (VerificationError.new path
         (.internalError "not found in modified compiler output"))]
     | some contracts_modified =>
       contracts.map (fun nc => candidateResult v path contracts_modified nc.1 nc.2))
    ++ candidateResults v output_modified rest

/-- Specification-side view of the candidate loop outcome: the first
successful candidate wins without consulting later candidates; if none
succeeds, the errors of all failed candidates are returned in order. -/
def firstSuccess :
    List (RustRes VerificationError VerificationSuccess) →
    RustRes (List VerificationError) VerificationSuccess
  | [] => .err []
  | .ok s :: _ => .ok s
  | .panic m :: _ => .panic m
  | .err e :: rest =>
    match firstSuccess rest with
    | .err es => .err (e :: es)
    | .ok s => .ok s
    | .panic m => .panic m

/-- Prefix already-accumulated errors onto a loop outcome. -/
def prependErrors (errors : List VerificationError) :
    RustRes (List VerificationError) VerificationSuccess →
    RustRes (List VerificationError) VerificationSuccess
  | .err es => .err (errors ++ es)
  | .ok s => .ok s
  | .panic m => .panic m

/-- The well-formedness of a part split against its byte string, from position
`i` on: main parts are the literal slices, metadata parts decode from their
offset to exactly the stored map and encoded length with the stored length
suffix in the following two bytes, and the parts tile the byte string
completely. This is the invariant of `LocalBytecode` stated in the spec. -/
def describesFrom (raw : Bytes) : Nat → List BytecodePart → Bool
  | i, [] => i == raw.length
  | i, .main r :: ps =>
    decide (i + r.length ≤ raw.length)
    && (listSlice raw i (i + r.length) == r)
    && describesFrom raw (i + r.length) ps
  | i, .metadata m lraw elen :: ps =>
    decide (MetadataHash.fromCbor (raw.drop i) = Except.ok (m, elen))
    && decide (i + elen + 2 ≤ raw.length)
    && (listSlice raw (i + elen) (i + elen + 2) == lraw)
    && describesFrom raw (i + elen + 2) ps

/-- The weaker tiling invariant: main parts are the literal slices and the
part sizes tile the byte string; nothing is said about the metadata bytes. -/
def spansFrom (raw : Bytes) : Nat → List BytecodePart → Bool
  | i, [] => i == raw.length
  | i, .main r :: ps =>
    decide (i + r.length ≤ raw.length)
    && (listSlice raw i (i + r.length) == r)
    && spansFrom raw (i + r.length) ps
  | i, .metadata _ _ elen :: ps =>
    decide (i + elen + 2 ≤ raw.length)
    && spansFrom raw (i + elen + 2) ps

/-- Whether a comparison outcome is a `BytecodeMismatch`. -/
def isBytecodeMismatch : RustRes VerificationErrorKind Unit → Bool
  | .err (.bytecodeMismatch _ _) => true
  | _ => false

/-- Concrete example data: a minimal CBOR metadata map with only a solc key. -/
def smallMeta : Bytes := [0xa1, 0x64, 0x73, 0x6f, 0x6c, 0x63, 0x43, 0x00, 0x08, 0x0e]

/-- The minimal metadata map followed by its 2-byte big-endian length suffix. -/
def smallLocal : Bytes := smallMeta ++ [0x00, 0x0a]

/-- The decoded form of the minimal metadata map. -/
def smallHash : MetadataHash := ⟨some [0, 8, 14], none, none, []⟩

/-- The metadata part describing `smallLocal`. -/
def smallPart : BytecodePart := .metadata smallHash [0x00, 0x0a] 10

/-- A remote byte string of the same length as `smallLocal` whose CBOR map
consumes eleven bytes, so that the length-suffix read runs past the end. -/
def remoteOverrun : Bytes :=
  [0xa1, 0x64, 0x73, 0x6f, 0x6c, 0x63, 0x44, 0x00, 0x08, 0x0e, 0x01, 0x00]

/-- A contract artifact whose bytecodes are exactly `smallLocal` and whose ABI
has no constructor. -/
def contractSelf : Contract :=
  ⟨some ⟨none⟩, .linked smallLocal [smallPart], .linked smallLocal [smallPart]⟩

/-- The same artifact but with an ABI constructor expecting one argument. -/
def contractCtor : Contract :=
  ⟨some ⟨some ⟨[⟨.uint256⟩]⟩⟩, .linked smallLocal [smallPart],
    .linked smallLocal [smallPart]⟩

/-- A verifier whose remote bytes equal the bytes of `contractSelf`. -/
def verifierSelf : Verifier := ⟨⟨smallLocal, smallLocal⟩⟩

/-- A two-byte executable region. -/
def mainLocal : Bytes := [0x60, 0x80] ++ smallLocal

/-- The part split of `mainLocal`: a main region followed by the metadata. -/
def mainParts : List BytecodePart := [.main [0x60, 0x80], smallPart]

/-- An artifact whose bytecodes are `mainLocal`, with no ABI constructor. -/
def contractMain : Contract :=
  ⟨some ⟨none⟩, .linked mainLocal mainParts, .linked mainLocal mainParts⟩

/-- A verifier whose remote bytes equal the bytes of `contractMain`. -/
def verifierMain : Verifier := ⟨⟨mainLocal, mainLocal⟩⟩

/-- An artifact whose bytecodes are abstract (empty). -/
def contractEmpty : Contract := ⟨some ⟨none⟩, .empty, .empty⟩

theorem listSlice_append (raw s : Bytes) (a b : Nat) (hab : a ≤ b)
    (hb : b ≤ raw.length) : listSlice (raw ++ s) a b = listSlice raw a b := by
  unfold listSlice
  rw [List.drop_append_of_le_length (le_trans hab hb),
    List.take_append_of_le_length (by simp; omega)]

/-- C2, helper: the guarded tail slice under the length precondition. -/
theorem sliceFrom_of_le (xs : Bytes) (a : Nat) (h : a ≤ xs.length) :
    sliceFrom xs a = some (xs.drop a) := by
  simp [sliceFrom, h]

/-- C2: the four-case behaviour of `extract_constructor_args` over
`encoded = remote[len(local)..]`: nothing encoded and nothing expected returns
none; nothing encoded but arguments expected fails with empty bytes; bytes
encoded but none expected fails with those bytes; bytes encoded and arguments
expected are ABI-decoded, failing with the bytes on a decode failure and
returning the raw undecoded bytes on success. -/
theorem extract_constructor_args_cases (remote_raw local_raw : Bytes)
    (ctor : Option Constructor) (hlen : local_raw.length ≤ remote_raw.length) :
    (remote_raw.drop local_raw.length = [] → expectsConstructorArgs ctor = false →
      extractConstructorArgs remote_raw local_raw ctor = .ok none)
    ∧ (remote_raw.drop local_raw.length = [] → expectsConstructorArgs ctor = true →
      extractConstructorArgs remote_raw local_raw ctor
        = .err (.invalidConstructorArguments []))
    ∧ (remote_raw.drop local_raw.length ≠ [] → expectsConstructorArgs ctor = false →
      extractConstructorArgs remote_raw local_raw ctor
        = .err (.invalidConstructorArguments (remote_raw.drop local_raw.length)))
    ∧ (∀ ct, ctor = some ct → remote_raw.drop local_raw.length ≠ [] →
        expectsConstructorArgs ctor = true →
      (∀ msg, ethabiDecode (ct.inputs.map Param.kind) (remote_raw.drop local_raw.length)
          = .error msg →
        extractConstructorArgs remote_raw local_raw ctor
          = .err (.invalidConstructorArguments (remote_raw.drop local_raw.length)))
      ∧ (∀ toks, ethabiDecode (ct.inputs.map Param.kind) (remote_raw.drop local_raw.length)
          = .ok toks →
        extractConstructorArgs remote_raw local_raw ctor
          = .ok (some (remote_raw.drop local_raw.length)))) := by
  have hsf := sliceFrom_of_le remote_raw local_raw.length hlen
  refine ⟨?_, ?_, ?_, ?_⟩
  · intro he hexp
    simp [extractConstructorArgs, hsf, he, hexp]
  · intro he hexp
    simp [extractConstructorArgs, hsf, he, hexp]
  · intro he hexp
    simp [extractConstructorArgs, hsf, List.isEmpty_iff, he, hexp]
  · intro ct hct he hexp
    subst hct
    constructor
    · intro msg hdec
      simp [extractConstructorArgs, hsf, List.isEmpty_iff, he, hexp,
        parseConstructorArgs, hdec]
    · intro toks hdec
      simp [extractConstructorArgs, hsf, List.isEmpty_iff, he, hexp,
        parseConstructorArgs, hdec]

/-- C2, witness: at `remote = local = [0]` with no constructor the extractor
returns none. -/
theorem extract_constructor_args_cases_witness :
    extractConstructorArgs [0] [0] none = .ok none :=
  (extract_constructor_args_cases [0] [0] none (by decide)).1 (by decide) (by decide)

/-- C4: when a `Metadata` part is compared (the remote CBOR map decoded, its
length suffix matching), only the solc fields are consulted: differing solc
values fail with `CompilerVersionMismatch` carrying both values rendered as
hex strings, and agreeing solc values let the walk continue past the part no
matter how the other metadata fields differ. -/
theorem compare_metadata_only_solc (remote_raw local_raw : Bytes)
    (rest : List BytecodePart) (i : Nat) (m : MetadataHash) (lraw : Bytes)
    (elen : Nat) (m' : MetadataHash) (c : Nat)
    (hi : i ≤ remote_raw.length)
    (hdec : MetadataHash.fromCbor (remote_raw.drop i) = .ok (m', c))
    (hb : i + c + 2 ≤ remote_raw.length)
    (hsuf : listSlice remote_raw (i + c) (i + c + 2) = lraw) :
    (m.solc ≠ m'.solc →
      comparePartsLoop remote_raw local_raw (.metadata m lraw elen :: rest) i
        = .err (.compilerVersionMismatch
            ⟨m.solc.map displayBytes, m'.solc.map displayBytes⟩))
    ∧ (m.solc = m'.solc →
      comparePartsLoop remote_raw local_raw (.metadata m lraw elen :: rest) i
        = comparePartsLoop remote_raw local_raw rest (i + (elen + 2))) := by
  have hsc : sliceChecked remote_raw (i + c) (i + c + 2) = some lraw := by
    simp [sliceChecked, hb, hsuf]
  constructor
  · intro hne
    simp [comparePartsLoop, sliceFrom, hi, hdec, hsc, hne, BytecodePart.size]
  · intro heq
    simp [comparePartsLoop, sliceFrom, hi, hdec, hsc, heq, BytecodePart.size]

/-- C4, witness: the minimal map compared against itself at cursor 0: the solc
fields agree, so the walk continues past the metadata part and succeeds. -/
theorem compare_metadata_only_solc_witness :
    comparePartsLoop smallLocal smallLocal [smallPart] 0 = .ok () := by
  rw [show smallPart = .metadata smallHash [0x00, 0x0a] 10 from rfl,
    (compare_metadata_only_solc smallLocal smallLocal [] 0 smallHash
      [0x00, 0x0a] 10 smallHash 10 (by decide) (by decide) (by decide)
      (by decide)).2 rfl]
  rfl

/-- C5: when a `Metadata` part is compared and the two bytes following the
decoded remote CBOR map differ from the local part's length suffix, the
comparison fails with `MetadataParse("metadata length mismatch")`. -/
theorem compare_metadata_length_suffix (remote_raw local_raw : Bytes)
    (rest : List BytecodePart) (i : Nat) (m : MetadataHash) (lraw : Bytes)
    (elen : Nat) (m' : MetadataHash) (c : Nat)
    (hi : i ≤ remote_raw.length)
    (hdec : MetadataHash.fromCbor (remote_raw.drop i) = .ok (m', c))
    (hb : i + c + 2 ≤ remote_raw.length)
    (hsuf : listSlice remote_raw (i + c) (i + c + 2) ≠ lraw) :
    comparePartsLoop remote_raw local_raw (.metadata m lraw elen :: rest) i
      = .err (.metadataParse "metadata length mismatch") := by
  have hsc : sliceChecked remote_raw (i + c) (i + c + 2)
      = some (listSlice remote_raw (i + c) (i + c + 2)) := by
    simp [sliceChecked, hb]
  simp [comparePartsLoop, sliceFrom, hi, hdec, hsc, hsuf]

/-- C5, witness: the minimal map compared against a local part whose recorded
length suffix disagrees with the remote one. -/
theorem compare_metadata_length_suffix_witness :
    comparePartsLoop smallLocal smallLocal
      [.metadata smallHash [0x00, 0x0b] 10] 0
      = .err (.metadataParse "metadata length mismatch") :=
  compare_metadata_length_suffix smallLocal smallLocal [] 0 smallHash
    [0x00, 0x0b] 10 smallHash 10 (by decide) (by decide) (by decide) (by decide)

/-- C3: the settings-metadata sweep: compilers older than 0.6.0 get the single
candidate `None`; newer ones get `Ipfs`, `None`, `Bzzr1` in that fixed order;
after each attempt the loop continues exactly on `NoMatchingContracts`,
returns any other outcome immediately, and reports `NoMatchingContracts` when
the candidates are exhausted. -/
theorem settings_metadata_sweep :
    (∀ v : Version, Version.lt v ⟨0, 6, 0⟩ = true →
      settings_metadata v = [none])
    ∧ (∀ v : Version, Version.lt v ⟨0, 6, 0⟩ = false →
      settings_metadata v
        = [some ⟨some .ipfs⟩, some ⟨some .none⟩, some ⟨some .bzzr1⟩])
    ∧ (∀ (σ : Type) (attempt : CompilerInput → Except SweepError σ)
        (input : CompilerInput) (m : Option SettingsMetadata)
        (ms : List (Option SettingsMetadata)),
      (attempt (setMetadata input m) = .error .noMatchingContracts →
        sweepLoop attempt input (m :: ms)
          = sweepLoop attempt (setMetadata input m) ms)
      ∧ (∀ r, attempt (setMetadata input m) = r →
          r ≠ .error .noMatchingContracts →
          sweepLoop attempt input (m :: ms) = r))
    ∧ (∀ (σ : Type) (attempt : CompilerInput → Except SweepError σ)
        (input : CompilerInput),
      sweepLoop attempt input [] = .error .noMatchingContracts) := by
  refine ⟨?_, ?_, ?_, ?_⟩
  · intro v h
    simp [settings_metadata, h]
  · intro v h
    simp [settings_metadata, h, BYTECODE_HASHES, SettingsMetadata.fromBytecodeHash]
  · intro σ attempt input m ms
    constructor
    · intro h
      simp [sweepLoop, h]
    · intro r hr hne
      cases r with
      | error e =>
        cases e with
        | noMatchingContracts => exact absurd rfl hne
        | other msg => simp [sweepLoop, hr]
      | ok s => simp [sweepLoop, hr]
  · intro σ attempt input
    rfl

/-- C3, witness: a pre-0.6.0 compiler yields the single candidate `None`, a
0.8.14 compiler yields the three candidates in order, and an exhausted sweep
reports `NoMatchingContracts`. -/
theorem settings_metadata_sweep_witness :
    settings_metadata ⟨0, 5, 16⟩ = [none]
    ∧ settings_metadata ⟨0, 8, 14⟩
      = [some ⟨some .ipfs⟩, some ⟨some .none⟩, some ⟨some .bzzr1⟩]
    ∧ sweepLoop (σ := Unit) (fun _ => .error .noMatchingContracts)
        (CompilerInput.ofMultiFileContent ⟨[], none, none, none⟩) []
      = .error .noMatchingContracts :=
  ⟨settings_metadata_sweep.1 ⟨0, 5, 16⟩ (by decide),
   settings_metadata_sweep.2.1 ⟨0, 8, 14⟩ (by decide),
   settings_metadata_sweep.2.2.2 Unit (fun _ => .error .noMatchingContracts)
     (CompilerInput.ofMultiFileContent ⟨[], none, none, none⟩)⟩

/-- Overwriting the metadata option twice keeps only the second value;
all other fields of the input are untouched. -/
theorem setMetadata_setMetadata (input : CompilerInput)
    (m m' : Option SettingsMetadata) :
    setMetadata (setMetadata input m) m' = setMetadata input m' := rfl

/-- C10: the sweep's frame: overwriting the metadata option preserves the
language, sources, EVM version, optimizer settings and libraries computed once
from the request content, and every iteration of the sweep invokes the
external capability at exactly the base input with only the metadata option
replaced by the current candidate. -/
theorem sweep_only_metadata_varies :
    (∀ (content : MultiFileContent) (m : Option SettingsMetadata),
      (setMetadata (CompilerInput.ofMultiFileContent content) m).language
        = (CompilerInput.ofMultiFileContent content).language
      ∧ (setMetadata (CompilerInput.ofMultiFileContent content) m).sources
        = (CompilerInput.ofMultiFileContent content).sources
      ∧ (setMetadata (CompilerInput.ofMultiFileContent content) m).settings.evm_version
        = (CompilerInput.ofMultiFileContent content).settings.evm_version
      ∧ (setMetadata (CompilerInput.ofMultiFileContent content) m).settings.optimizer
        = (CompilerInput.ofMultiFileContent content).settings.optimizer
      ∧ (setMetadata (CompilerInput.ofMultiFileContent content) m).settings.libraries
        = (CompilerInput.ofMultiFileContent content).settings.libraries
      ∧ (setMetadata (CompilerInput.ofMultiFileContent content) m).settings.metadata
        = m)
    ∧ (∀ (σ : Type) (attempt : CompilerInput → Except SweepError σ)
        (input : CompilerInput) (ms : List (Option SettingsMetadata)),
      sweepLoop attempt input ms
        = attemptsFirst (fun m => attempt (setMetadata input m)) ms)
    ∧ (∀ (σ : Type) (attempt : CompilerInput → Except SweepError σ)
        (compiler_version : Version) (content : MultiFileContent),
      multiPartVerify attempt compiler_version content
        = attemptsFirst
            (fun m => attempt
              (setMetadata (CompilerInput.ofMultiFileContent content) m))
            (settings_metadata compiler_version)) := by
  have hloop : ∀ (σ : Type) (attempt : CompilerInput → Except SweepError σ)
      (ms : List (Option SettingsMetadata)) (input : CompilerInput),
      sweepLoop attempt input ms
        = attemptsFirst (fun m => attempt (setMetadata input m)) ms := by
    intro σ attempt ms
    induction ms with
    | nil => intro input; rfl
    | cons m rest ih =>
      intro input
      show (match attempt (setMetadata input m) with
        | .error .noMatchingContracts =>
          sweepLoop attempt (setMetadata input m) rest
        | result => result)
        = (match attempt (setMetadata input m) with
        | .error .noMatchingContracts =>
          attemptsFirst (fun m' => attempt (setMetadata input m')) rest
        | result => result)
      cases hres : attempt (setMetadata input m) with
      | error e =>
        cases e with
        | noMatchingContracts =>
          have := ih (setMetadata input m)
          simpa [setMetadata_setMetadata] using this
        | other msg => rfl
      | ok s => rfl
  refine ⟨?_, ?_, ?_⟩
  · intro content m
    exact ⟨rfl, rfl, rfl, rfl, rfl, rfl⟩
  · intro σ attempt input ms
    exact hloop σ attempt ms input
  · intro σ attempt compiler_version content
    exact hloop σ attempt (settings_metadata compiler_version)
      (CompilerInput.ofMultiFileContent content)

/-- C9: the failing input: the part sizes tile the local bytes, the remote
bytes are as long as the local ones, yet the comparison panics, because the
CBOR map decoded from the remote bytes consumes eleven of the twelve bytes and
the two-byte length-suffix read then runs past the end of the remote bytes.
The function's own documentation admits a panic only when the remote bytes are
shorter than the local ones. -/
theorem compare_bytecode_parts_overrun_panics :
    ((([smallPart] : List BytecodePart).map BytecodePart.size).sum
        = smallLocal.length)
    ∧ smallLocal.length ≤ remoteOverrun.length
    ∧ compareBytecodeParts remoteOverrun smallLocal [smallPart]
        = .panic "index out of range" := by
  refine ⟨by decide, by decide, by decide⟩

/-- Reading a fixed count of bytes is unaffected by appending a suffix. -/
theorem readN_append (n : Nat) (xs s bs r : Bytes)
    (h : readN n xs = .ok (bs, r)) : readN n (xs ++ s) = .ok (bs, r ++ s) := by
  induction n generalizing xs bs r with
  | zero =>
    simp only [readN, Except.ok.injEq, Prod.mk.injEq] at h
    obtain ⟨h1, h2⟩ := h
    subst h1; subst h2
    simp [readN]
  | succ n ih =>
    cases xs with
    | nil => simp [readN] at h
    | cons b rest =>
      simp only [readN] at h
      cases hr : readN n rest with
      | error e => simp [hr] at h
      | ok p =>
        obtain ⟨bs', r'⟩ := p
        simp only [hr, Except.ok.injEq, Prod.mk.injEq] at h
        obtain ⟨h1, h2⟩ := h
        subst h2
        rw [List.cons_append]
        simp only [readN, ih rest bs' r' hr, ← h1]

/-- Reading a single byte is unaffected by appending a suffix. -/
theorem readByte_append (xs s : Bytes) (l : Nat) (r : Bytes)
    (h : readByte xs = .ok (l, r)) : readByte (xs ++ s) = .ok (l, r ++ s) := by
  cases xs with
  | nil => simp [readByte] at h
  | cons b rest =>
    simp only [readByte, Except.ok.injEq, Prod.mk.injEq] at h
    obtain ⟨h1, h2⟩ := h
    subst h1; subst h2
    simp [readByte]

/-- Reading a CBOR text key is unaffected by appending a suffix. -/
theorem readTextKey_append (xs s bs r : Bytes)
    (h : readTextKey xs = .ok (bs, r)) :
    readTextKey (xs ++ s) = .ok (bs, r ++ s) := by
  cases xs with
  | nil => simp [readTextKey] at h
  | cons b rest =>
    rw [List.cons_append]
    simp only [readTextKey] at h ⊢
    split at h
    · rw [if_pos (by assumption)]
      exact readN_append _ _ _ _ _ h
    · split at h
      · rw [if_neg (by assumption), if_pos (by assumption)]
        cases hb : readByte rest with
        | error e => simp [hb] at h
        | ok p =>
          obtain ⟨l, rest1⟩ := p
          simp only [hb] at h
          simp only [readByte_append _ s _ _ hb]
          exact readN_append _ _ _ _ _ h
      · simp at h

/-- Reading a CBOR value is unaffected by appending a suffix. -/
theorem readValue_append (xs s : Bytes) (v : CborValue) (r : Bytes)
    (h : readValue xs = .ok (v, r)) :
    readValue (xs ++ s) = .ok (v, r ++ s) := by
  cases xs with
  | nil => simp [readValue] at h
  | cons b rest =>
    rw [List.cons_append]
    simp only [readValue] at h ⊢
    split at h
    · rw [if_pos (by assumption)]
      cases hr : readN (b - 0x40) rest with
      | error e => simp [hr] at h
      | ok p =>
        obtain ⟨bs', r'⟩ := p
        simp only [hr, Except.ok.injEq, Prod.mk.injEq] at h
        obtain ⟨h1, h2⟩ := h
        subst h2
        simp only [readN_append _ _ s _ _ hr, ← h1]
    · split at h
      · rw [if_neg (by assumption), if_pos (by assumption)]
        cases hb : readByte rest with
        | error e => simp [hb] at h
        | ok p =>
          obtain ⟨l, rest1⟩ := p
          simp only [hb] at h
          simp only [readByte_append _ s _ _ hb]
          cases hr : readN l rest1 with
          | error e => simp [hr] at h
          | ok p =>
            obtain ⟨bs', r'⟩ := p
            simp only [hr, Except.ok.injEq, Prod.mk.injEq] at h
            obtain ⟨h1, h2⟩ := h
            subst h2
            simp only [readN_append _ _ s _ _ hr, ← h1]
      · split at h
        · rw [if_neg (by assumption), if_neg (by assumption),
            if_pos (by assumption)]
          cases hr : readN (b - 0x60) rest with
          | error e => simp [hr] at h
          | ok p =>
            obtain ⟨bs', r'⟩ := p
            simp only [hr, Except.ok.injEq, Prod.mk.injEq] at h
            obtain ⟨h1, h2⟩ := h
            subst h2
            simp only [readN_append _ _ s _ _ hr, ← h1]
        · split at h
          · rw [if_neg (by assumption), if_neg (by assumption),
              if_neg (by assumption), if_pos (by assumption)]
            simp only [Except.ok.injEq, Prod.mk.injEq] at h
            obtain ⟨h1, h2⟩ := h
            subst h2
            simp [← h1]
          · split at h
            · rw [if_neg (by assumption), if_neg (by assumption),
                if_neg (by assumption), if_neg (by assumption),
                if_pos (by assumption)]
              simp only [Except.ok.injEq, Prod.mk.injEq] at h
              obtain ⟨h1, h2⟩ := h
              subst h2
              simp [← h1]
            · simp at h

/-- Reading the pairs of a CBOR map is unaffected by appending a suffix. -/
theorem readPairs_append (n : Nat) (xs s : Bytes)
    (pairs : List (Bytes × CborValue)) (r : Bytes)
    (h : readPairs n xs = .ok (pairs, r)) :
    readPairs n (xs ++ s) = .ok (pairs, r ++ s) := by
  induction n generalizing xs pairs r with
  | zero =>
    simp only [readPairs, Except.ok.injEq, Prod.mk.injEq] at h
    obtain ⟨h1, h2⟩ := h
    subst h1; subst h2
    simp [readPairs]
  | succ n ih =>
    simp only [readPairs] at h ⊢
    cases hk : readTextKey xs with
    | error e => simp [hk] at h
    | ok pk =>
      obtain ⟨key, rest1⟩ := pk
      simp only [hk] at h
      simp only [readTextKey_append _ s _ _ hk]
      cases hv : readValue rest1 with
      | error e => simp [hv] at h
      | ok pv =>
        obtain ⟨v, rest2⟩ := pv
        simp only [hv] at h
        simp only [readValue_append _ s _ _ hv]
        cases hp : readPairs n rest2 with
        | error e => simp [hp] at h
        | ok pp =>
          obtain ⟨pairs', rest3⟩ := pp
          simp only [hp, Except.ok.injEq, Prod.mk.injEq] at h
          obtain ⟨h1, h2⟩ := h
          subst h2
          simp only [ih rest2 pairs' rest3 hp, ← h1]

/-- Decoding the CBOR metadata map is prefix-stable: a successful decode is
unchanged, in value and in consumed count, by appending further bytes. -/
theorem fromCbor_append (xs s : Bytes) (m : MetadataHash) (c : Nat)
    (h : MetadataHash.fromCbor xs = .ok (m, c)) :
    MetadataHash.fromCbor (xs ++ s) = .ok (m, c) := by
  cases xs with
  | nil => simp [MetadataHash.fromCbor] at h
  | cons b rest =>
    rw [List.cons_append]
    simp only [MetadataHash.fromCbor] at h ⊢
    split at h
    · rw [if_pos (by assumption)]
      cases hp : readPairs (b - 0xa0) rest with
      | error e => simp [hp] at h
      | ok pp =>
        obtain ⟨pairs, rem⟩ := pp
        simp only [hp, Except.ok.injEq, Prod.mk.injEq] at h
        obtain ⟨h1, h2⟩ := h
        simp only [readPairs_append _ _ s _ _ hp, Except.ok.injEq, Prod.mk.injEq]
        refine ⟨h1, ?_⟩
        rw [← h2]
        simp only [List.length_cons, List.length_append]
        omega
    · simp at h

/-- A part split that describes its byte string walks cleanly over the same
bytes with any suffix appended. -/
theorem describes_walk_ok (s raw : Bytes) (ps : List BytecodePart) (i : Nat)
    (h : describesFrom raw i ps = true) :
    comparePartsLoop (raw ++ s) raw ps i = .ok () := by
  induction ps generalizing i with
  | nil => rfl
  | cons p rest ih =>
    cases p with
    | main r =>
      simp only [describesFrom, Bool.and_eq_true, decide_eq_true_eq,
        beq_iff_eq] at h
      obtain ⟨⟨h1, h2⟩, h3⟩ := h
      have hsc : sliceChecked (raw ++ s) i (i + r.length) = some r := by
        simp only [sliceChecked]
        rw [if_pos ⟨Nat.le_add_right _ _, by simp; omega⟩,
          listSlice_append raw s i (i + r.length) (Nat.le_add_right _ _) h1, h2]
      simp only [comparePartsLoop, hsc]
      rw [if_neg (by simp)]
      simp only [BytecodePart.size]
      exact ih (i + r.length) h3
    | metadata m lraw elen =>
      simp only [describesFrom, Bool.and_eq_true, decide_eq_true_eq,
        beq_iff_eq] at h
      obtain ⟨⟨⟨hdec, h1⟩, h2⟩, h3⟩ := h
      have hi : i ≤ raw.length := by omega
      have hsf : sliceFrom (raw ++ s) i = some (raw.drop i ++ s) := by
        simp only [sliceFrom]
        rw [if_pos (by simp; omega), List.drop_append_of_le_length hi]
      have hdec' : MetadataHash.fromCbor (raw.drop i ++ s) = .ok (m, elen) :=
        fromCbor_append _ s _ _ hdec
      have hsc : sliceChecked (raw ++ s) (i + elen) (i + elen + 2)
          = some lraw := by
        simp only [sliceChecked]
        rw [if_pos ⟨by omega, by simp; omega⟩,
          listSlice_append raw s _ _ (by omega) h1, h2]
      simp only [comparePartsLoop, hsf, hdec', hsc]
      rw [if_neg (by simp), if_neg (by simp)]
      simp only [BytecodePart.size]
      have harith : i + (elen + 2) = i + elen + 2 := by omega
      rw [harith]
      exact ih _ h3

/-- A part split that merely tiles its byte string never produces a
`BytecodeMismatch` when walked over the same bytes with any suffix. -/
theorem spans_walk_no_mismatch (s raw : Bytes) (ps : List BytecodePart) (i : Nat)
    (h : spansFrom raw i ps = true) :
    isBytecodeMismatch (comparePartsLoop (raw ++ s) raw ps i) = false := by
  induction ps generalizing i with
  | nil => rfl
  | cons p rest ih =>
    cases p with
    | main r =>
      simp only [spansFrom, Bool.and_eq_true, decide_eq_true_eq,
        beq_iff_eq] at h
      obtain ⟨⟨h1, h2⟩, h3⟩ := h
      have hsc : sliceChecked (raw ++ s) i (i + r.length) = some r := by
        simp only [sliceChecked]
        rw [if_pos ⟨Nat.le_add_right _ _, by simp; omega⟩,
          listSlice_append raw s i (i + r.length) (Nat.le_add_right _ _) h1, h2]
      simp only [comparePartsLoop, hsc]
      rw [if_neg (by simp)]
      simp only [BytecodePart.size]
      exact ih (i + r.length) h3
    | metadata m lraw elen =>
      simp only [spansFrom, Bool.and_eq_true, decide_eq_true_eq] at h
      obtain ⟨h1, h3⟩ := h
      have hi : i ≤ raw.length := by omega
      have hsf : sliceFrom (raw ++ s) i = some (raw.drop i ++ s) := by
        simp only [sliceFrom]
        rw [if_pos (by simp; omega), List.drop_append_of_le_length hi]
      simp only [comparePartsLoop, hsf]
      cases hdec : MetadataHash.fromCbor (raw.drop i ++ s) with
      | error e => simp [isBytecodeMismatch]
      | ok p =>
        obtain ⟨m', c⟩ := p
        cases hsc : sliceChecked (raw ++ s) (i + c) (i + c + 2) with
        | none => simp [hsc, isBytecodeMismatch]
        | some suf =>
          simp only [hsc]
          by_cases hsuf : suf = lraw
          · by_cases hsolc : m.solc = m'.solc
            · simp only [hsuf, hsolc, ite_self, if_neg, not_true_eq_false,
                ne_eq, not_false_eq_true, ite_true, ite_false,
                BytecodePart.size]
              have harith : i + (elen + 2) = i + elen + 2 := by omega
              simp only [harith]
              exact ih _ h3
            · simp [hsuf, hsolc, isBytecodeMismatch]
          · simp [hsuf, isBytecodeMismatch]

/-- C6 (amended): verifying a valid artifact — one that parses into a
well-formed `LocalBytecode` — against the bytes produced by itself succeeds
and returns no constructor arguments, provided its ABI constructor expects no
arguments. (With an argument-expecting constructor the extractor rejects the
empty tail instead; see the counterexample.) -/
theorem compare_self_ok (craw draw : Bytes) (cparts dparts : List BytecodePart)
    (abi : Abi) (c : Contract)
    (habi : c.abi = some abi)
    (hcre : c.creation = .linked craw cparts)
    (hdep : c.deployed = .linked draw dparts)
    (hdesc : describesFrom craw 0 cparts = true)
    (hexp : expectsConstructorArgs abi.constructor = false) :
    Verifier.compare ⟨⟨craw, draw⟩⟩ c c = .ok (abi, none) := by
  obtain ⟨cabi, ccre, cdep⟩ := c
  simp only at habi hcre hdep
  subst habi; subst hcre; subst hdep
  have hwalk : comparePartsLoop craw craw cparts 0 = .ok () := by
    have := describes_walk_ok [] craw cparts 0 hdesc
    simpa using this
  have hextract : extractConstructorArgs craw craw abi.constructor = .ok none := by
    simp [extractConstructorArgs, sliceFrom, hexp]
  simp [Verifier.compare, parseContract, LocalBytecode.new,
    compareCreationTxInputs, LocalBytecode.creation_tx_input,
    compareBytecodeParts, hwalk, hextract]

/-- C6, witness: the minimal constructor-free artifact compared against its
own bytes succeeds with no constructor arguments. -/
theorem compare_self_ok_witness :
    Verifier.compare verifierSelf contractSelf contractSelf
      = .ok (⟨none⟩, none) :=
  compare_self_ok smallLocal smallLocal [smallPart] [smallPart] ⟨none⟩
    contractSelf rfl rfl rfl (by decide) (by decide)

/-- C6, counterexample: a perfectly valid artifact whose ABI constructor
expects one argument, verified against the bytes produced by itself (no
appended arguments), does not succeed: the extractor reports
`InvalidConstructorArguments` with empty bytes. -/
theorem compare_self_ctor_fails :
    Verifier.compare verifierSelf contractCtor contractCtor
      = .err (.invalidConstructorArguments []) := by
  decide

/-- C7 (amended): appending a nonempty byte suffix to the local creation input
never causes a `BytecodeMismatch` (the tiling invariant of `LocalBytecode`
suffices for that), the parts walk itself succeeds for a well-formed split,
and the outcome is `InvalidConstructorArguments(suffix)` when the ABI expects
no constructor arguments, or the raw suffix when it is a valid ABI encoding of
the constructor's arguments. (At the empty suffix the outcome is instead a
success carrying no constructor arguments; see the counterexample.) -/
theorem append_suffix_outcomes (raw s : Bytes) (ps : List BytecodePart)
    (ctor : Option Constructor) :
    (spansFrom raw 0 ps = true →
      isBytecodeMismatch (compareBytecodeParts (raw ++ s) raw ps) = false)
    ∧ (describesFrom raw 0 ps = true →
      compareBytecodeParts (raw ++ s) raw ps = .ok ())
    ∧ (s ≠ [] → expectsConstructorArgs ctor = false →
      extractConstructorArgs (raw ++ s) raw ctor
        = .err (.invalidConstructorArguments s))
    ∧ (∀ ct toks, ctor = some ct → s ≠ [] →
      ethabiDecode (ct.inputs.map Param.kind) s = .ok toks →
      extractConstructorArgs (raw ++ s) raw ctor = .ok (some s)) := by
  have hlen : ¬ (raw ++ s).length < raw.length := by simp
  have hdropped : (raw ++ s).drop raw.length = s := List.drop_left raw s
  have hsf : sliceFrom (raw ++ s) raw.length = some s := by
    simp [sliceFrom, hdropped]
  refine ⟨?_, ?_, ?_, ?_⟩
  · intro hspan
    simp only [compareBytecodeParts, if_neg hlen]
    exact spans_walk_no_mismatch s raw ps 0 hspan
  · intro hdesc
    simp only [compareBytecodeParts, if_neg hlen]
    exact describes_walk_ok s raw ps 0 hdesc
  · intro hs hexp
    simp [extractConstructorArgs, hsf, List.isEmpty_iff, hs, hexp]
  · intro ct toks hct hs hdec
    subst hct
    have hexp : expectsConstructorArgs (some ct) = true := by
      simp only [ethabiDecode] at hdec
      by_cases hl : s.length = 32 * ct.inputs.length
      · simp only [expectsConstructorArgs, decide_eq_true_eq]
        have : s.length ≠ 0 := by
          intro hzero
          exact hs (List.eq_nil_of_length_eq_zero hzero)
        omega
      · simp [hl] at hdec
    simp [extractConstructorArgs, hsf, List.isEmpty_iff, hs, hexp,
      parseConstructorArgs, hdec]

/-- C7, witness: appending a 32-byte word to the minimal artifact's bytes,
with a one-argument constructor, walks cleanly and returns the raw suffix. -/
theorem append_suffix_outcomes_witness :
    compareBytecodeParts (smallLocal ++ List.replicate 32 1) smallLocal
      [smallPart] = .ok ()
    ∧ extractConstructorArgs (smallLocal ++ List.replicate 32 1) smallLocal
      (some ⟨[⟨.uint256⟩]⟩) = .ok (some (List.replicate 32 1)) :=
  ⟨(append_suffix_outcomes smallLocal (List.replicate 32 1) [smallPart]
      (some ⟨[⟨.uint256⟩]⟩)).2.1 (by decide),
   (append_suffix_outcomes smallLocal (List.replicate 32 1) [smallPart]
      (some ⟨[⟨.uint256⟩]⟩)).2.2.2 ⟨[⟨.uint256⟩]⟩
      [.word (List.replicate 32 1)] rfl (by decide) (by decide)⟩

/-- C7, counterexample: with the empty suffix appended (remote equal to local)
and no constructor in the ABI, the outcome is a success carrying no
constructor arguments — not `InvalidConstructorArguments` as the claim's
no-argument case predicts for every suffix. -/
theorem append_empty_suffix_succeeds :
    Verifier.compare verifierMain contractMain contractMain
      = .ok (⟨none⟩, none) := by
  decide

/-- C8 (amended): only the unmodified contract's parse failure is mapped per
the init-error table — empty bytecodes to `AbstractContract`, unresolved
library placeholders to `LibraryMissed`; a parse failure of the modified
contract is instead wrapped as `InternalError("modified contract: ...")`. -/
theorem compare_parse_failure_mapping (v : Verifier) (c cm : Contract)
    (abi : Abi) (habi : c.abi = some abi) :
    (∀ e, parseContract c = .error e →
      Verifier.compare v c cm = .err (mapInitError e))
    ∧ (mapInitError .emptyCreationTxInput = .abstractContract
      ∧ mapInitError .emptyDeployedBytecode = .abstractContract)
    ∧ (∀ r, mapInitError (.invalidCreationTxInput r) = .libraryMissed
      ∧ mapInitError (.invalidDeployedBytecode r) = .libraryMissed)
    ∧ (∀ p e, parseContract c = .ok p → parseContract cm = .error e →
      Verifier.compare v c cm
        = .err (.internalError ("modified contract: " ++ e.message))) := by
  refine ⟨?_, ⟨rfl, rfl⟩, fun r => ⟨rfl, rfl⟩, ?_⟩
  · intro e he
    simp [Verifier.compare, habi, he]
  · intro p e hp he
    simp [Verifier.compare, habi, hp, he]

/-- C8, witness: an abstract unmodified contract maps to `AbstractContract`. -/
theorem compare_parse_failure_mapping_witness :
    Verifier.compare verifierSelf contractEmpty contractSelf
      = .err .abstractContract :=
  (compare_parse_failure_mapping verifierSelf contractEmpty contractSelf
    ⟨none⟩ rfl).1 .emptyCreationTxInput rfl

/-- C8, counterexample: when only the modified contract fails to parse (here
it is abstract), the comparator reports an `InternalError`, not the
`AbstractContract` mapping the claim predicts for either contract. -/
theorem compare_modified_parse_failure_internal :
    Verifier.compare verifierSelf contractSelf contractEmpty
      = .err (.internalError
          ("modified contract: " ++ "creation transaction input is empty"))
    ∧ Verifier.compare verifierSelf contractSelf contractEmpty
      ≠ .err .abstractContract := by
  refine ⟨by decide, by decide⟩

/-- Prepending no errors is the identity. -/
theorem prependErrors_nil (r : RustRes (List VerificationError) VerificationSuccess) :
    prependErrors [] r = r := by
  cases r <;> simp [prependErrors]

/-- Folding one failed candidate into the accumulated errors. -/
theorem prependErrors_err_cons (errors : List VerificationError)
    (e : VerificationError)
    (l : List (RustRes VerificationError VerificationSuccess)) :
    prependErrors errors (firstSuccess (.err e :: l))
      = prependErrors (errors ++ [e]) (firstSuccess l) := by
  simp only [firstSuccess]
  cases hfs : firstSuccess l with
  | err es => simp [prependErrors, List.append_assoc]
  | ok s => simp [prependErrors]
  | panic m => simp [prependErrors]

/-- Prepending twice is prepending the concatenation. -/
theorem prependErrors_prepend (errors es : List VerificationError)
    (r : RustRes (List VerificationError) VerificationSuccess) :
    prependErrors errors (prependErrors es r)
      = prependErrors (errors ++ es) r := by
  cases r <;> simp [prependErrors, List.append_assoc]

/-- The first success over an appended candidate list, when the first half
only fails. -/
theorem firstSuccess_append_err
    (xs ys : List (RustRes VerificationError VerificationSuccess))
    (es : List VerificationError) (h : firstSuccess xs = .err es) :
    firstSuccess (xs ++ ys) = prependErrors es (firstSuccess ys) := by
  induction xs generalizing es with
  | nil =>
    simp only [firstSuccess, RustRes.err.injEq] at h
    subst h
    simp [prependErrors_nil]
  | cons x rest ih =>
    cases x with
    | ok s => simp [firstSuccess] at h
    | panic m => simp [firstSuccess] at h
    | err e =>
      simp only [firstSuccess] at h
      cases hfs : firstSuccess rest with
      | err es' =>
        rw [hfs] at h
        simp only [RustRes.err.injEq] at h
        subst h
        have hrec := ih es' hfs
        rw [List.cons_append]
        simp only [firstSuccess, List.append_eq] at hrec ⊢
        rw [hrec]
        cases hy : firstSuccess ys with
        | err fs => simp [prependErrors]
        | ok s => simp [prependErrors]
        | panic m => simp [prependErrors]
      | ok s => simp [hfs] at h
      | panic m => simp [hfs] at h

/-- The first success over an appended candidate list, when the first half
already succeeds. -/
theorem firstSuccess_append_ok
    (xs ys : List (RustRes VerificationError VerificationSuccess))
    (s : VerificationSuccess) (h : firstSuccess xs = .ok s) :
    firstSuccess (xs ++ ys) = .ok s := by
  induction xs generalizing s with
  | nil => simp [firstSuccess] at h
  | cons x rest ih =>
    cases x with
    | ok s' => simpa [firstSuccess] using h
    | panic m => simp [firstSuccess] at h
    | err e =>
      simp only [firstSuccess] at h
      cases hfs : firstSuccess rest with
      | err es' => simp [hfs] at h
      | ok s' =>
        rw [hfs] at h
        simp only [RustRes.ok.injEq] at h
        subst h
        have hrec := ih s' hfs
        rw [List.cons_append]
        simp only [firstSuccess, List.append_eq] at hrec ⊢
        rw [hrec]
      | panic m => simp [hfs] at h

/-- The first success over an appended candidate list, when the first half
panics. -/
theorem firstSuccess_append_panic
    (xs ys : List (RustRes VerificationError VerificationSuccess))
    (m : String) (h : firstSuccess xs = .panic m) :
    firstSuccess (xs ++ ys) = .panic m := by
  induction xs generalizing m with
  | nil => simp [firstSuccess] at h
  | cons x rest ih =>
    cases x with
    | ok s' => simp [firstSuccess] at h
    | panic m' => simpa [firstSuccess] using h
    | err e =>
      simp only [firstSuccess] at h
      cases hfs : firstSuccess rest with
      | err es' => simp [hfs] at h
      | ok s' => simp [hfs] at h
      | panic m' =>
        rw [hfs] at h
        simp only [RustRes.panic.injEq] at h
        subst h
        have hrec := ih m' hfs
        rw [List.cons_append]
        simp only [firstSuccess, List.append_eq] at hrec ⊢
        rw [hrec]

/-- The inner candidate loop realizes the first-success semantics over the
per-contract candidate results. -/
theorem verifyContractLoop_spec (v : Verifier) (path : String)
    (cmod : List (String × Contract)) (cs : List (String × Contract))
    (errors : List VerificationError) :
    verifyContractLoop v path cmod cs errors
      = prependErrors errors
          (firstSuccess (cs.map (fun nc => candidateResult v path cmod nc.1 nc.2))) := by
  induction cs generalizing errors with
  | nil => simp [verifyContractLoop, firstSuccess, prependErrors]
  | cons nc rest ih =>
    obtain ⟨name, contract⟩ := nc
    rw [List.map_cons]
    cases hlk : cmod.lookup name with
    | none =>
      have hcand : candidateResult v path cmod name contract
          = .err (VerificationError.with_contract path name
              (.internalError "not found in modified compiler output")) := by
        simp [candidateResult, hlk]
      rw [hcand, prependErrors_err_cons, ← ih]
      simp only [verifyContractLoop, hlk]
    | some cm =>
      cases hcmp : v.compare contract cm with
      | ok p =>
        obtain ⟨abi, args⟩ := p
        have hcand : candidateResult v path cmod name contract
            = .ok ⟨path, name, abi, args⟩ := by
          simp [candidateResult, hlk, hcmp]
        rw [hcand]
        simp only [verifyContractLoop, hlk, hcmp, firstSuccess, prependErrors]
      | err k =>
        have hcand : candidateResult v path cmod name contract
            = .err (VerificationError.with_contract path name k) := by
          simp [candidateResult, hlk, hcmp]
        rw [hcand, prependErrors_err_cons, ← ih]
        simp only [verifyContractLoop, hlk, hcmp]
      | panic m =>
        have hcand : candidateResult v path cmod name contract = .panic m := by
          simp [candidateResult, hlk, hcmp]
        rw [hcand]
        simp only [verifyContractLoop, hlk, hcmp, firstSuccess, prependErrors]

/-- The outer path loop realizes the first-success semantics over the full
candidate sequence. -/
theorem verifyPathLoop_spec (v : Verifier) (om : CompilerOutput)
    (paths : List (String × List (String × Contract)))
    (errors : List VerificationError) :
    verifyPathLoop v om paths errors
      = prependErrors errors (firstSuccess (candidateResults v om paths)) := by
  induction paths generalizing errors with
  | nil => simp [verifyPathLoop, candidateResults, firstSuccess, prependErrors]
  | cons pc rest ih =>
    obtain ⟨path, contracts⟩ := pc
    cases hlk : om.contracts.lookup path with
    | none =>
      have hcr : candidateResults v om ((path, contracts) :: rest)
          = .err (VerificationError.new path
              (.internalError "not found in modified compiler output"))
            :: candidateResults v om rest := by
        simp [candidateResults, hlk]
      rw [hcr, prependErrors_err_cons, ← ih]
      simp only [verifyPathLoop, hlk]
    | some cmod =>
      have hcr : candidateResults v om ((path, contracts) :: rest)
          = contracts.map (fun nc => candidateResult v path cmod nc.1 nc.2)
            ++ candidateResults v om rest := by
        simp [candidateResults, hlk]
      have hinner := verifyContractLoop_spec v path cmod contracts errors
      cases hfs : firstSuccess
          (contracts.map fun nc => candidateResult v path cmod nc.1 nc.2) with
      | err es =>
        have hl : verifyContractLoop v path cmod contracts errors
            = .err (errors ++ es) := by
          rw [hinner, hfs]; rfl
        rw [hcr]
        simp only [verifyPathLoop, hlk, hl]
        rw [ih, firstSuccess_append_err _ _ es hfs, prependErrors_prepend]
      | ok s =>
        have hl : verifyContractLoop v path cmod contracts errors = .ok s := by
          rw [hinner, hfs]; rfl
        rw [hcr]
        simp only [verifyPathLoop, hlk, hl]
        rw [firstSuccess_append_ok _ _ s hfs]
        rfl
      | panic m =>
        have hl : verifyContractLoop v path cmod contracts errors
            = .panic m := by
          rw [hinner, hfs]; rfl
        rw [hcr]
        simp only [verifyPathLoop, hlk, hl]
        rw [firstSuccess_append_panic _ _ m hfs]
        rfl

/-- C1: `Verifier::verify` realizes exactly the first-success semantics over
the candidate sequence in iteration order: the first candidate whose
comparison succeeds yields `VerificationSuccess` with its file path, contract
name, ABI and constructor arguments, later candidates contributing nothing;
a candidate (file path or contract name) absent from the modified output
contributes an `InternalError("not found in modified compiler output")` and
iteration continues; and when no candidate succeeds, the list with one
`VerificationError` per failed candidate is returned. -/
theorem verify_first_success (v : Verifier)
    (output output_modified : CompilerOutput) :
    Verifier.verify v output output_modified
      = firstSuccess (candidateResults v output_modified output.contracts) := by
  unfold Verifier.verify
  rw [verifyPathLoop_spec, prependErrors_nil]
